import Mathlib

/-!
Verification of the argument-resolution core of the `sarge` library.

Strings are embedded as lists of characters (`Str`), matching the
character-sequence semantics of the Rust `str` operations the code uses
(`strip_prefix`, `split_once`, `chars`, `split`).

The embedding covers:
* the `Tag` identity type and its `PartialEq` from `src/lib.rs`;
* `ArgumentParser::parse_args` from `src/lib.rs` (tokenizer and resolver);
* `Cli` / `Full` matching from `src/tag.rs`;
* the `Vec<T>` `ArgumentType::from_value` implementation from `src/types.rs`.
-/

abbrev Str := List Char

/-- `Tag` from `src/lib.rs`: `Short(char) | Long(String) | Both(char, String)`. -/
inductive Tag where
  | short (c : Char)
  | long (l : Str)
  | both (c : Char) (l : Str)
deriving DecidableEq

/-- The custom `PartialEq for Tag` from `src/lib.rs` (lines 18-44):
matching on either component. -/
def tagEq : Tag → Tag → Bool
  | .short s, .short o => decide (s = o)
  | .short s, .both o _ => decide (s = o)
  | .short _, .long _ => false
  | .long s, .long o => decide (s = o)
  | .long s, .both _ o => decide (s = o)
  | .long _, .short _ => false
  | .both s1 _, .short o => decide (s1 = o)
  | .both _ s2, .long o => decide (s2 = o)
  | .both s1 s2, .both o1 o2 => decide (s1 = o1) || decide (s2 = o2)

/-- `ArgType` from `src/lib.rs`: `Flag | String | Integer`. -/
inductive ArgType where
  | flag
  | str
  | integer
deriving DecidableEq

/-- `ArgValue` from `src/lib.rs`: `Flag(bool) | String(String) | Integer(i32)`. -/
inductive ArgValue where
  | flag (b : Bool)
  | str (s : Str)
  | integer (i : Int)
deriving DecidableEq

/-- `Argument` from `src/lib.rs`. -/
structure Argument where
  tag : Tag
  typ : ArgType
  val : Option ArgValue
deriving DecidableEq

/-- `Argument::new` from `src/lib.rs` (val starts as `None`). -/
def Argument.new (tag : Tag) (typ : ArgType) : Argument :=
  ⟨tag, typ, none⟩

/-- `ArgumentParser` from `src/lib.rs`. -/
structure ArgumentParser where
  args : List Argument
  binary : Option Str
deriving DecidableEq

/-- `ArgParseError` from `src/lib.rs`. -/
inductive ArgParseError where
  | invalidInteger (s : Str)
  | unknownFlag (s : Str)
  | unexpectedArgument (s : Str)
  | missingValue (s : Str)
  | consumedValue (s : Str)
deriving DecidableEq

/-- The error kinds of Rust's `core::num::ParseIntError` reachable from
`str::parse::<iN>`. -/
inductive IntErrKind where
  | empty
  | invalidDigit
  | posOverflow
  | negOverflow
deriving DecidableEq

/-- The `Display` strings of the `ParseIntError` kinds (the code stores
`e.to_string()` in `ArgParseError::InvalidInteger`). -/
def intErrMsg : IntErrKind → Str
  | .empty => ("cannot parse integer from empty string").toList
  | .invalidDigit => ("invalid digit found in string").toList
  | .posOverflow => ("number too large to fit in target type").toList
  | .negOverflow => ("number too small to fit in target type").toList

/-- Digit-accumulation loop of Rust's `from_str_radix` (radix 10), with the
per-step bounds checks of `checked_mul`/`checked_add`/`checked_sub`. -/
def parseIntStep (lo hi : Int) (neg : Bool) : Int → Str → Except IntErrKind Int
  | acc, [] => .ok acc
  | acc, c :: cs =>
    if c.isDigit then
      if neg then
        let acc' := acc * 10 - ((c.toNat - 48 : Nat) : Int)
        if acc' < lo then .error .negOverflow else parseIntStep lo hi neg acc' cs
      else
        let acc' := acc * 10 + ((c.toNat - 48 : Nat) : Int)
        if hi < acc' then .error .posOverflow else parseIntStep lo hi neg acc' cs
    else .error .invalidDigit

/-- Rust's `str::parse::<iN>` for a signed integer type with bounds
`[lo, hi]`: optional sign, at least one digit, per-step overflow checks. -/
def parseIntRust (lo hi : Int) (s : Str) : Except IntErrKind Int :=
  match s with
  | [] => .error .empty
  | _ =>
    let p : Bool × Str :=
      match s with
      | '+' :: r => (false, r)
      | '-' :: r => (true, r)
      | _ => (false, s)
    if p.2 = [] then .error .invalidDigit
    else parseIntStep lo hi p.1 0 p.2

/-- `str::parse::<i32>` as used by `parse_args` in `src/lib.rs`. -/
def parseI32 : Str → Except IntErrKind Int :=
  parseIntRust (-2147483648) 2147483647

/-- `str::split_once(sep)`: split at the first occurrence of `sep`. -/
def splitOnce (sep : Char) : Str → Option (Str × Str)
  | [] => none
  | c :: cs =>
    if c = sep then some ([], cs)
    else (splitOnce sep cs).map (fun p => (c :: p.1, p.2))

/-- `ArgumentParser::arg_mut`: index and declared type of the first
registered argument whose tag `PartialEq`-matches the query
(`self.args.iter_mut().find(|arg| arg.tag == tag)`). -/
def lookupIdx : List Argument → Tag → Option (Nat × ArgType)
  | [], _ => none
  | a :: rest, q =>
    if tagEq a.tag q then some (0, a.typ)
    else (lookupIdx rest q).map (fun p => (p.1 + 1, p.2))

/-- Write a new raw value into the slot at the given index
(the `arg.val = ...` assignments in `parse_args`). -/
def updateVal : List Argument → Nat → Option ArgValue → List Argument
  | [], _, _ => []
  | a :: rest, 0, v => { a with val := v } :: rest
  | a :: rest, n + 1, v => a :: updateVal rest n v

/-- The short-cluster loop of `parse_args` (`src/lib.rs` lines 232-271).
`whole` is the cluster without its leading dash (used in the
`ConsumedValue` error), `next?` is the head of the remaining token stream.
At most one character may consume `next?`; the returned flag records
whether it was consumed. A second consumer aborts with `ConsumedValue`
before touching the stream, so a single lookahead token suffices. -/
def clusterStep (whole : Str) (next? : Option Str) :
    List Argument → List Char → Bool → Except ArgParseError (List Argument × Bool)
  | slots, [], used => .ok (slots, used)
  | slots, c :: cs, used =>
    match lookupIdx slots (.short c) with
    | none => .error (.unknownFlag [c])
    | some (i, .flag) =>
      clusterStep whole next? (updateVal slots i (some (.flag true))) cs used
    | some (i, .integer) =>
      if used then .error (.consumedValue whole)
      else
        match next? with
        | none => .error (.missingValue [c])
        | some v =>
          match parseI32 v with
          | .error e => .error (.invalidInteger (intErrMsg e))
          | .ok n => clusterStep whole next? (updateVal slots i (some (.integer n))) cs true
    | some (i, .str) =>
      if used then .error (.consumedValue whole)
      else
        match next? with
        | none => .error (.missingValue [c])
        | some v => clusterStep whole next? (updateVal slots i (some (.str v))) cs true

/-- What processing one token tells the scan loop to do next:
abort with an error, push the token to the remainder, continue with the
stream unchanged, or continue with the following token consumed as a
value (`args.next()` taken inside the body). -/
inductive StepRes where
  | err (e : ArgParseError)
  | push (slots : List Argument)
  | cont (slots : List Argument)
  | contEat (slots : List Argument)
deriving DecidableEq

/-- Whether a step outcome is an error. -/
def StepRes.isErr : StepRes → Bool
  | .err _ => true
  | _ => false

/-- The slot registry carried by a non-error step outcome. -/
def StepRes.outSlots : StepRes → List Argument
  | .err _ => []
  | .push s => s
  | .cont s => s
  | .contEat s => s

/-- The body of the `while let` loop of `ArgumentParser::parse_args`
(`src/lib.rs` lines 177-274) for one current token `t`, with `next?` the
head of the remaining stream. Mirrors the source exactly, including:
the `--` branch splitting the UNSTRIPPED token on `=` (so the left part
keeps its leading dashes); the eager `args.next()` lookahead taken for
every `--` token without `=`, even when the slot turns out to be a
non-consuming flag; and `--` itself entering the long branch with an
empty name. -/
def step (slots : List Argument) (t : Str) (next? : Option Str) : StepRes :=
  match t with
  | [] => .push slots
  | c1 :: t1 =>
    if c1 = '-' then
      match t1 with
      | [] => .push slots
      | c2 :: t2 =>
        if c2 = '-' then
          match splitOnce '=' t with
          | some (left, right) =>
            match lookupIdx slots (.long left) with
            | none => .err (.unknownFlag left)
            | some (i, .flag) => .cont (updateVal slots i (some (.flag true)))
            | some (i, .integer) =>
              match parseI32 right with
              | .error e => .err (.invalidInteger (intErrMsg e))
              | .ok n => .cont (updateVal slots i (some (.integer n)))
            | some (i, .str) => .cont (updateVal slots i (some (.str right)))
          | none =>
            match lookupIdx slots (.long t2) with
            | none => .err (.unknownFlag t2)
            | some (i, .flag) => .contEat (updateVal slots i (some (.flag true)))
            | some (i, .integer) =>
              match next? with
              | none => .err (.missingValue t2)
              | some v =>
                match parseI32 v with
                | .error e => .err (.invalidInteger (intErrMsg e))
                | .ok n => .contEat (updateVal slots i (some (.integer n)))
            | some (i, .str) =>
              match next? with
              | none => .err (.missingValue t2)
              | some v => .contEat (updateVal slots i (some (.str v)))
        else
          if t2 = [] then
            match lookupIdx slots (.short c2) with
            | none => .err (.unknownFlag [c2])
            | some (i, .flag) => .cont (updateVal slots i (some (.flag true)))
            | some (i, .integer) =>
              match next? with
              | none => .err (.missingValue [c2])
              | some v =>
                match parseI32 v with
                | .error e => .err (.invalidInteger (intErrMsg e))
                | .ok n => .contEat (updateVal slots i (some (.integer n)))
            | some (i, .str) =>
              match next? with
              | none => .err (.missingValue [c2])
              | some v => .contEat (updateVal slots i (some (.str v)))
          else
            match clusterStep (c2 :: t2) next? slots (c2 :: t2) false with
            | .error e => .err e
            | .ok (slots', true) => .contEat slots'
            | .ok (slots', false) => .cont slots'
    else .push slots

/-- The token-scanning loop of `ArgumentParser::parse_args`
(`src/lib.rs` lines 177-275), operating on the stream left after the
binary name was taken: process the head token via `step`, then continue
on the stream with the consumed lookahead (if any) removed. A
`contEat` on an empty remaining stream only arises for a long flag
whose eager `args.next()` found nothing, and continues like `cont`. -/
def parseLoop : List Argument → List Str → Except ArgParseError (List Argument × List Str)
  | slots, [] => .ok (slots, [])
  | slots, t :: rest =>
    match step slots t rest.head? with
    | .err e => .error e
    | .push slots' =>
      match parseLoop slots' rest with
      | .error e => .error e
      | .ok (s, rem) => .ok (s, t :: rem)
    | .cont slots' => parseLoop slots' rest
    | .contEat slots' =>
      match rest with
      | [] => .ok (slots', [])
      | _ :: rest2 => parseLoop slots' rest2

/-- The initialization pass at the top of `parse_args`
(`src/lib.rs` lines 170-175): every flag slot is set to `Flag(false)`,
every other slot is cleared to `None`, before any token is examined. -/
def resetArg (a : Argument) : Argument :=
  { a with val := match a.typ with
                  | .flag => some (.flag false)
                  | _ => none }

/-- `ArgumentParser::parse_args` (`src/lib.rs` lines 164-278): takes the
first token as the binary name, resets all slot values, then scans the
remaining tokens. -/
def parse_args (p : ArgumentParser) (args : List Str) :
    Except ArgParseError (ArgumentParser × List Str) :=
  match parseLoop (p.args.map resetArg) args.tail with
  | .error e => .error e
  | .ok (slots', rem) => .ok ({ args := slots', binary := args.head? }, rem)

/-- `Cli` from `src/tag.rs`: `Short(char) | Long(String) | Both(char, String)`. -/
inductive Cli where
  | Short (c : Char)
  | Long (l : Str)
  | Both (c : Char) (l : Str)
deriving DecidableEq

/-- `Cli::matches_long` from `src/tag.rs` (lines 224-229). -/
def Cli.matches_long : Cli → Str → Bool
  | .Short _, _ => false
  | .Long l, long => decide (l = long)
  | .Both _ l, long => decide (l = long)

/-- `Cli::matches_short` from `src/tag.rs` (lines 233-238). -/
def Cli.matches_short : Cli → Char → Bool
  | .Long _, _ => false
  | .Short s, c => decide (s = c)
  | .Both s _, c => decide (s = c)

/-- `Cli::matches` from `src/tag.rs` (lines 208-220): strip `--` and try
the long component, else strip a single `-` and try the FIRST remaining
character against the short component (no length check), else false. -/
def Cli.matches (t : Cli) (tag : Str) : Bool :=
  match tag with
  | c1 :: c2 :: rest =>
    if c1 = '-' then
      if c2 = '-' then t.matches_long rest
      else t.matches_short c2
    else false
  | [_] => false
  | [] => false

/-- The custom `PartialEq for Cli` from `src/tag.rs` (lines 241-259);
the same algorithm as `tagEq` in `src/lib.rs`. -/
def cliEq : Cli → Cli → Bool
  | .Short s, .Short o => decide (s = o)
  | .Short s, .Both o _ => decide (s = o)
  | .Short _, .Long _ => false
  | .Long s, .Long o => decide (s = o)
  | .Long s, .Both _ o => decide (s = o)
  | .Long _, .Short _ => false
  | .Both s1 _, .Short o => decide (s1 = o)
  | .Both _ s2, .Long o => decide (s2 = o)
  | .Both s1 s2, .Both o1 o2 => decide (s1 = o1) || decide (s2 = o2)

/-- `Full` from `src/tag.rs`: optional CLI component, optional environment
variable name, plus presentation metadata (behind feature `help`). -/
structure Full where
  cli : Option Cli
  env : Option Str
  doc : Option Str
  default : Option Str

/-- `Full::matches_cli` from `src/tag.rs` (lines 124-126). -/
def Full.matches_cli (f : Full) (tag : Str) : Bool :=
  match f.cli with
  | some t => t.matches tag
  | none => false

/-- Opaque bit-pattern stand-in for `f64`; no floating-point arithmetic is
modelled or needed (the code under scrutiny never produces one). -/
structure F64 where
  bits : Nat
deriving DecidableEq

/-- `ArgumentValue` of the later snapshot, reconstructed from its uses in
`src/types.rs`: `Bool(bool) | String(String) | I64(i64) | U64(u64) | Float(f64)`. -/
inductive ArgumentValue where
  | bool (b : Bool)
  | string (s : Str)
  | i64 (n : Int)
  | u64 (n : Nat)
  | float (f : F64)
deriving DecidableEq

/-- `ArgumentValueType` from `src/types.rs`. -/
inductive ArgumentValueType where
  | Bool
  | String
  | I64
  | U64
  | Float
deriving DecidableEq

/-- The five base `ArgumentType` implementors in `src/types.rs`. -/
inductive BaseType where
  | bool
  | string
  | i64
  | u64
  | f64
deriving DecidableEq

/-- `T::arg_type()` for each base implementation in `src/types.rs`. -/
def argTypeOf : BaseType → ArgumentValueType
  | .bool => .Bool
  | .string => .String
  | .i64 => .I64
  | .u64 => .U64
  | .f64 => .Float

/-- Outcome of a `T::from_value` call for a base type: the value, a
`T::Error` (never actually produced by the base impls), or the
`unreachable!` panic taken when the wrong `ArgumentValue` variant is
passed. -/
inductive FromRes where
  | ok (v : ArgumentValue)
  | err
  | panicked
deriving DecidableEq

/-- `T::from_value` for each base implementation in `src/types.rs`:
accept exactly the matching variant, hit `unreachable!` otherwise. -/
def fromValueBase : BaseType → ArgumentValue → FromRes
  | .bool, .bool b => .ok (.bool b)
  | .bool, _ => .panicked
  | .string, .string s => .ok (.string s)
  | .string, _ => .panicked
  | .i64, .i64 n => .ok (.i64 n)
  | .i64, _ => .panicked
  | .u64, .u64 n => .ok (.u64 n)
  | .u64, _ => .panicked
  | .f64, .float f => .ok (.float f)
  | .f64, _ => .panicked

/-- Rust's `str::parse::<bool>`: exactly `true` or `false`. -/
def parseBoolRust (s : Str) : Option Bool :=
  if s = ("true").toList then some true
  else if s = ("false").toList then some false
  else none

/-- `str::parse::<i64>` as used in the `I64` arm of `src/types.rs`. -/
def parseI64 : Str → Except IntErrKind Int :=
  parseIntRust (-9223372036854775808) 9223372036854775807

/-- Rust's `str::split(',')`, accumulating the current chunk. Every chunk
is kept, including empty ones; the empty string yields one empty chunk. -/
def splitCommasAux : Str → Str → List Str
  | cur, [] => [cur.reverse]
  | cur, c :: cs => if c = ',' then cur.reverse :: splitCommasAux [] cs else splitCommasAux (c :: cur) cs

/-- Rust's `s.split(',')` from `src/types.rs` line 151. -/
def splitCommas (s : Str) : List Str :=
  splitCommasAux [] s

/-- One `bit` of the loop in `<Vec<T>>::from_value` (`src/types.rs` lines
154-192), dispatching on `T::arg_type()`. The `U64` and `Float` arms are
transcribed exactly as written in the source: they construct
`ArgumentValue::Bool(bit.parse())`, so the chunk is parsed as a `bool`
and the result is handed to `T::from_value` wrapped in the `Bool`
variant. `.err` covers both a failed `bit.parse` and a `T::from_value`
error (both are mapped into `InvalidListError::Err`). -/
def elemValue (T : BaseType) (bit : Str) : FromRes :=
  match argTypeOf T with
  | .Bool =>
    match parseBoolRust bit with
    | none => .err
    | some b => fromValueBase T (.bool b)
  | .String => fromValueBase T (.string bit)
  | .I64 =>
    match parseI64 bit with
    | .error _ => .err
    | .ok n => fromValueBase T (.i64 n)
  | .U64 =>
    match parseBoolRust bit with
    | none => .err
    | some b => fromValueBase T (.bool b)
  | .Float =>
    match parseBoolRust bit with
    | none => .err
    | some b => fromValueBase T (.bool b)

/-- Overall outcome of `<Vec<T>>::from_value`: the parsed elements in
order, an `InvalidListError` (payload elided: it is a `Box<dyn Debug>`
that the source's own `PartialEq` ignores), or a panic via
`unreachable!`. -/
inductive VecRes where
  | ok (vals : List ArgumentValue)
  | listErr
  | panicked
deriving DecidableEq

/-- The element loop of `<Vec<T>>::from_value` over the comma-split
chunks: each element parsed independently, first failure aborting the
whole list. -/
def vecFromValueBits (T : BaseType) : List Str → VecRes
  | [] => .ok []
  | bit :: bits =>
    match elemValue T bit with
    | .panicked => .panicked
    | .err => .listErr
    | .ok v =>
      match vecFromValueBits T bits with
      | .ok vs => .ok (v :: vs)
      | r => r

/-- `<Vec<T> as ArgumentType>::from_value` from `src/types.rs` (lines
149-199): accept only the `String` variant (`unreachable!` otherwise),
split it on commas, and parse each chunk. -/
def vecFromValue (T : BaseType) (v : ArgumentValue) : VecRes :=
  match v with
  | .string s => vecFromValueBits T (splitCommas s)
  | _ => .panicked

/-- A token of the scan loop "mentions" a slot tag when processing it as
the CURRENT token performs a lookup whose query `PartialEq`-matches the
tag: a `--` token queries the long name the code computes for it (the
left part of the `=`-split of the unstripped token, else the stripped
remainder), and a short token queries each of its characters. Tokens
pulled from the stream as values are never looked up. -/
def mentionsTag (g : Tag) (t : Str) : Bool :=
  match t with
  | [] => false
  | c1 :: t1 =>
    if c1 = '-' then
      match t1 with
      | [] => false
      | c2 :: t2 =>
        if c2 = '-' then
          match splitOnce '=' t with
          | some (left, _) => tagEq g (.long left)
          | none => tagEq g (.long t2)
        else (c2 :: t2).any fun ch => tagEq g (.short ch)
    else false

/-- A freshly declared registry with the same slots (each rebuilt by
`Argument::new`, so with `val = None`) and no recorded binary. -/
def freshLike (p : ArgumentParser) : ArgumentParser :=
  ⟨p.args.map (fun a => Argument.new a.tag a.typ), none⟩

/-- The long component of a `Cli` tag, when present. -/
def Cli.longComp : Cli → Option Str
  | .Short _ => none
  | .Long l => some l
  | .Both _ l => some l

/-- The short component of a `Cli` tag, when present. -/
def Cli.shortComp : Cli → Option Char
  | .Long _ => none
  | .Short c => some c
  | .Both c _ => some c

/-- Whether the slot found for short character `c` has a value-consuming
declared type (`String` or `Integer`). -/
def slotConsumes (slots : List Argument) (c : Char) : Bool :=
  match lookupIdx slots (.short c) with
  | some (_, .integer) => true
  | some (_, .str) => true
  | _ => false

/-- Whether the first value-consuming character of a cluster would
successfully take the following token `v` as its value: always for a
`String` slot, and exactly when `v` parses as an `i32` for an `Integer`
slot. -/
def firstConsumeOk (slots : List Argument) (s : List Char) (v : Str) : Bool :=
  match s.find? (slotConsumes slots) with
  | some c =>
    match lookupIdx slots (.short c) with
    | some (_, .str) => true
    | some (_, .integer) => (parseI32 v).toOption.isSome
    | _ => false
  | none => false

/-- The three CLI shapes by which a registered value-consuming slot can
occur as the final token of the stream with no inline value: long form
`--name`, lone short form `-c`, and a short cluster whose characters up
to the consuming one are registered non-consuming flags. The second
`Str` index is the name the `MissingValue` error must carry. -/
inductive ConsumingAtEnd (slots : List Argument) : Str → Str → Prop where
  | longForm (name : Str) (i : Nat) (ty : ArgType)
      (hsplit : splitOnce '=' ('-' :: '-' :: name) = none)
      (hlk : lookupIdx slots (.long name) = some (i, ty))
      (hty : ty ≠ .flag) :
      ConsumingAtEnd slots ('-' :: '-' :: name) name
  | shortForm (c : Char) (i : Nat) (ty : ArgType)
      (hc : c ≠ '-')
      (hlk : lookupIdx slots (.short c) = some (i, ty))
      (hty : ty ≠ .flag) :
      ConsumingAtEnd slots ['-', c] [c]
  | clusterForm (pre : List Char) (c : Char) (post : List Char) (i : Nat) (ty : ArgType)
      (hhead : (pre ++ c :: post).head? ≠ some '-')
      (hlen : pre ≠ [] ∨ post ≠ [])
      (hpre : ∀ ch ∈ pre, ∃ j, lookupIdx slots (.short ch) = some (j, .flag))
      (hlk : lookupIdx slots (.short c) = some (i, ty))
      (hty : ty ≠ .flag) :
      ConsumingAtEnd slots ('-' :: (pre ++ c :: post)) [c]

deriving instance DecidableEq for Except

/-- C1: the claim states that a long-form token of a non-consuming flag
slot records presence WITHOUT consuming the following token, so the
remainder keeps that token. The code instead takes `args.next()` eagerly
for every `--` token without `=`: parsing `bin --verbose pos` against a
single flag slot `--verbose` sets the flag but silently swallows `pos`
— the remainder is empty instead of containing `pos`. -/
theorem c1_long_flag_eats_following_token :
    parse_args ⟨[Argument.new (.long (("verbose").toList)) .flag], none⟩
        [("bin").toList, ("--verbose").toList, ("pos").toList] =
      .ok (⟨[⟨.long (("verbose").toList), .flag, some (.flag true)⟩],
            some (("bin").toList)⟩, []) := by
  decide

/-- C2: the claim states that `--name=value` first strips `--` and then
splits on `=`, using the part between `--` and `=` for slot lookup. The
code splits the UNSTRIPPED token, so the lookup name keeps its leading
dashes: `--name=x` against a registered long slot `name` fails with
`UnknownFlag("--name")` instead of storing `x`. -/
theorem c2_inline_value_lookup_keeps_dashes :
    parse_args ⟨[Argument.new (.long (("name").toList)) .str], none⟩
        [("bin").toList, ("--name=x").toList] =
      .error (.unknownFlag (("--name").toList)) := by
  decide

/-- C3: the claim states that `Vec<T>` parses each comma-separated chunk
with T's own contract for every supported element type. That holds for
`i64` (first conjunct, matching the repo's own `int_list_type` test) and
for `String`, but the `U64` and `Float` arms of the source construct
`ArgumentValue::Bool(bit.parse())`: a numeric chunk fails the `bool`
parse and errors the whole list, and a chunk that IS `true`/`false`
reaches `u64::from_value`'s `unreachable!` panic. -/
theorem c3_list_element_contracts :
    vecFromValue .i64 (.string (("123,456,789").toList)) =
        .ok [.i64 123, .i64 456, .i64 789] ∧
      vecFromValue .string (.string (("Hello,World,!").toList)) =
        .ok [.string (("Hello").toList), .string (("World").toList),
             .string (("!").toList)] ∧
      vecFromValue .u64 (.string (("123,456").toList)) = .listErr ∧
      vecFromValue .u64 (.string (("true").toList)) = .panicked ∧
      vecFromValue .f64 (.string (("1.5").toList)) = .listErr := by
  decide

/-- C5: the claim states that both `-` and `--` are pushed verbatim to
the remainder and never error. The code handles `-` that way, but `--`
is captured by the `strip_prefix("--")` branch as a long flag with empty
name and fails with `UnknownFlag("")` even against an empty registry. -/
theorem c5_lone_dashes :
    parse_args ⟨[], none⟩ [("bin").toList, ("-").toList] =
        .ok (⟨[], some (("bin").toList)⟩, [("-").toList]) ∧
      parse_args ⟨[], none⟩ [("bin").toList, ("--").toList] =
        .error (.unknownFlag []) := by
  decide

/-- C6 counterexample: a cluster `-cd` whose characters both name
registered value-consuming (integer) slots, with a following token
present, does NOT fail with `ConsumedValue`: the first consuming
character parses the following token as an integer first, and an
unparsable value aborts with `InvalidInteger` before the conflict is
ever detected. -/
theorem c6_counterexample :
    parse_args ⟨[Argument.new (.short 'c') .integer,
                 Argument.new (.short 'd') .integer], none⟩
        [("bin").toList, ("-cd").toList, ("x").toList] =
      .error (.invalidInteger (("invalid digit found in string").toList)) ∧
      parse_args ⟨[Argument.new (.short 'c') .integer,
                   Argument.new (.short 'd') .integer], none⟩
          [("bin").toList, ("-cd").toList, ("x").toList] ≠
        .error (.consumedValue (("cd").toList)) := by
  decide

/-- C4 counterexample: the claim states that a token consisting of a
single `-` followed by two or more characters never matches. The code
only looks at the FIRST character after the dash: `-ab` matches the
short tag `a`. -/
theorem c4_counterexample :
    (Cli.Short 'a').matches (("-ab").toList) = true := by
  decide

theorem updateVal_getElem?_ne (l : List Argument) (v : Option ArgValue) :
    ∀ (i j : Nat), j ≠ i → (updateVal l j v)[i]? = l[i]? := by
  induction l with
  | nil => intro i j _; simp [updateVal]
  | cons a rest ih =>
    intro i j hne
    cases j with
    | zero =>
      cases i with
      | zero => exact absurd rfl hne
      | succ i' => simp [updateVal]
    | succ j' =>
      cases i with
      | zero => simp [updateVal]
      | succ i' =>
        simp only [updateVal, List.getElem?_cons_succ]
        exact ih i' j' (fun h => hne (by rw [h]))

theorem lookupIdx_mem (q : Tag) :
    ∀ (l : List Argument) (j : Nat) (ty : ArgType),
      lookupIdx l q = some (j, ty) →
      ∃ a, l[j]? = some a ∧ tagEq a.tag q = true ∧ a.typ = ty := by
  intro l
  induction l with
  | nil => intro j ty h; simp [lookupIdx] at h
  | cons a rest ih =>
    intro j ty h
    simp only [lookupIdx] at h
    by_cases hm : tagEq a.tag q = true
    · rw [if_pos hm] at h
      have h0 : 0 = j ∧ a.typ = ty := by
        have := Option.some.inj h
        exact ⟨congrArg Prod.fst this, congrArg Prod.snd this⟩
      rw [← h0.1]
      exact ⟨a, by simp, hm, h0.2⟩
    · rw [if_neg hm] at h
      cases hr : lookupIdx rest q with
      | none => rw [hr] at h; simp at h
      | some p =>
        rw [hr] at h
        have hp : p.1 + 1 = j ∧ p.2 = ty := by
          have := Option.some.inj h
          exact ⟨congrArg Prod.fst this, congrArg Prod.snd this⟩
        obtain ⟨a', ha', hta', hty'⟩ := ih p.1 p.2 hr
        refine ⟨a', ?_, hta', by rw [hty', hp.2]⟩
        rw [← hp.1]
        simpa using ha'

theorem lookupIdx_ne (l : List Argument) (q : Tag) (j i : Nat) (ty : ArgType)
    (a : Argument) (hlk : lookupIdx l q = some (j, ty)) (ha : l[i]? = some a)
    (hne : tagEq a.tag q = false) : j ≠ i := by
  intro hji
  obtain ⟨a', ha', hta', _⟩ := lookupIdx_mem q l j ty hlk
  rw [hji, ha] at ha'
  cases ha'
  rw [hta'] at hne
  exact Bool.noConfusion hne

theorem updateVal_preserve (l : List Argument) (q : Tag) (j i : Nat) (ty : ArgType)
    (a : Argument) (v : Option ArgValue)
    (hlk : lookupIdx l q = some (j, ty)) (ha : l[i]? = some a)
    (hne : tagEq a.tag q = false) : (updateVal l j v)[i]? = some a := by
  rw [updateVal_getElem?_ne l v i j (lookupIdx_ne l q j i ty a hlk ha hne)]
  exact ha

theorem lookupIdx_updateVal (q : Tag) (v : Option ArgValue) :
    ∀ (l : List Argument) (j : Nat), lookupIdx (updateVal l j v) q = lookupIdx l q := by
  intro l
  induction l with
  | nil => intro j; simp [updateVal]
  | cons a rest ih =>
    intro j
    cases j with
    | zero => simp [updateVal, lookupIdx]
    | succ j' => simp [updateVal, lookupIdx, ih j']

theorem clusterStep_preserve (whole : Str) (next? : Option Str) :
    ∀ (chars : List Char) (slots : List Argument) (used : Bool)
      (slots' : List Argument) (used' : Bool),
      clusterStep whole next? slots chars used = .ok (slots', used') →
      ∀ (i : Nat) (a : Argument), slots[i]? = some a →
        (∀ ch ∈ chars, tagEq a.tag (.short ch) = false) →
        slots'[i]? = some a := by
  intro chars
  induction chars with
  | nil =>
    intro slots used slots' used' h i a ha _
    simp only [clusterStep, Except.ok.injEq, Prod.mk.injEq] at h
    rw [← h.1]
    exact ha
  | cons c cs ih =>
    intro slots used slots' used' h i a ha hm
    have hmc : tagEq a.tag (.short c) = false := hm c (by simp)
    have hmcs : ∀ ch ∈ cs, tagEq a.tag (.short ch) = false := fun ch hch => hm ch (by simp [hch])
    cases hlk : lookupIdx slots (.short c) with
    | none => simp [clusterStep, hlk] at h
    | some p =>
      obtain ⟨j, ty⟩ := p
      cases ty with
      | flag =>
        simp only [clusterStep, hlk] at h
        exact ih _ used slots' used' h i a
          (updateVal_preserve slots _ j i .flag a _ hlk ha hmc) hmcs
      | integer =>
        cases used with
        | true => simp [clusterStep, hlk] at h
        | false =>
          cases next? with
          | none => simp [clusterStep, hlk] at h
          | some v =>
            cases hpv : parseI32 v with
            | error e => simp [clusterStep, hlk, hpv] at h
            | ok n =>
              simp only [clusterStep, hlk, hpv] at h
              simp only [Bool.false_eq_true, if_false] at h
              exact ih _ true slots' used' h i a
                (updateVal_preserve slots _ j i .integer a _ hlk ha hmc) hmcs
      | str =>
        cases used with
        | true => simp [clusterStep, hlk] at h
        | false =>
          cases next? with
          | none => simp [clusterStep, hlk] at h
          | some v =>
            simp only [clusterStep, hlk] at h
            simp only [Bool.false_eq_true, if_false] at h
            exact ih _ true slots' used' h i a
              (updateVal_preserve slots _ j i .str a _ hlk ha hmc) hmcs


theorem step_preserve (slots : List Argument) (t : Str) (next? : Option Str)
    (i : Nat) (a : Argument) (ha : slots[i]? = some a)
    (hm : mentionsTag a.tag t = false) :
    (step slots t next?).isErr = true ∨
      (step slots t next?).outSlots[i]? = some a := by
  cases t with
  | nil => right; simpa [step, StepRes.outSlots] using ha
  | cons c1 t1 =>
    by_cases hc1 : c1 = '-'
    case neg => right; simpa [step, hc1, StepRes.outSlots] using ha
    case pos =>
      subst hc1
      cases t1 with
      | nil => right; simpa [step, StepRes.outSlots] using ha
      | cons c2 t2 =>
        by_cases hc2 : c2 = '-'
        case pos =>
          subst hc2
          cases hsp : splitOnce '=' ('-' :: '-' :: t2) with
          | some pr =>
            obtain ⟨left, right⟩ := pr
            have hmt : tagEq a.tag (.long left) = false := by
              simpa [mentionsTag, hsp] using hm
            cases hlk : lookupIdx slots (.long left) with
            | none => simp [step, hsp, hlk, StepRes.isErr]
            | some p =>
              obtain ⟨j, ty⟩ := p
              cases ty with
              | flag =>
                refine Or.inr ?_
                simp only [step, hsp, hlk]
                simpa [StepRes.outSlots] using
                  updateVal_preserve slots _ j i .flag a _ hlk ha hmt
              | integer =>
                cases hpi : parseI32 right with
                | error e => simp [step, hsp, hlk, hpi, StepRes.isErr]
                | ok n =>
                  refine Or.inr ?_
                  simp only [step, hsp, hlk, hpi]
                  simpa [StepRes.outSlots] using
                    updateVal_preserve slots _ j i .integer a _ hlk ha hmt
              | str =>
                refine Or.inr ?_
                simp only [step, hsp, hlk]
                simpa [StepRes.outSlots] using
                  updateVal_preserve slots _ j i .str a _ hlk ha hmt
          | none =>
            have hmt : tagEq a.tag (.long t2) = false := by
              simpa [mentionsTag, hsp] using hm
            cases hlk : lookupIdx slots (.long t2) with
            | none => simp [step, hsp, hlk, StepRes.isErr]
            | some p =>
              obtain ⟨j, ty⟩ := p
              cases ty with
              | flag =>
                refine Or.inr ?_
                simp only [step, hsp, hlk]
                simpa [StepRes.outSlots] using
                  updateVal_preserve slots _ j i .flag a _ hlk ha hmt
              | integer =>
                cases next? with
                | none => simp [step, hsp, hlk, StepRes.isErr]
                | some v =>
                  cases hpi : parseI32 v with
                  | error e => simp [step, hsp, hlk, hpi, StepRes.isErr]
                  | ok n =>
                    refine Or.inr ?_
                    simp only [step, hsp, hlk, hpi]
                    simpa [StepRes.outSlots] using
                      updateVal_preserve slots _ j i .integer a _ hlk ha hmt
              | str =>
                cases next? with
                | none => simp [step, hsp, hlk, StepRes.isErr]
                | some v =>
                  refine Or.inr ?_
                  simp only [step, hsp, hlk]
                  simpa [StepRes.outSlots] using
                    updateVal_preserve slots _ j i .str a _ hlk ha hmt
        case neg =>
          by_cases hte : t2 = []
          case pos =>
            subst hte
            have hmt : tagEq a.tag (.short c2) = false := by
              simpa [mentionsTag, hc2] using hm
            cases hlk : lookupIdx slots (.short c2) with
            | none => simp [step, hc2, hlk, StepRes.isErr]
            | some p =>
              obtain ⟨j, ty⟩ := p
              cases ty with
              | flag =>
                refine Or.inr ?_
                simp only [step, hlk, if_neg hc2]
                simpa [StepRes.outSlots] using
                  updateVal_preserve slots _ j i .flag a _ hlk ha hmt
              | integer =>
                cases next? with
                | none => simp [step, hc2, hlk, StepRes.isErr]
                | some v =>
                  cases hpi : parseI32 v with
                  | error e => simp [step, hc2, hlk, hpi, StepRes.isErr]
                  | ok n =>
                    refine Or.inr ?_
                    simp only [step, hlk, hpi, if_neg hc2]
                    simpa [StepRes.outSlots] using
                      updateVal_preserve slots _ j i .integer a _ hlk ha hmt
              | str =>
                cases next? with
                | none => simp [step, hc2, hlk, StepRes.isErr]
                | some v =>
                  refine Or.inr ?_
                  simp only [step, hlk, if_neg hc2]
                  simpa [StepRes.outSlots] using
                    updateVal_preserve slots _ j i .str a _ hlk ha hmt
          case neg =>
            have hmall : ∀ ch ∈ c2 :: t2, tagEq a.tag (.short ch) = false := by
              have h2 := hm
              simp [mentionsTag, hc2, List.any_eq_false] at h2
              intro ch hch
              rcases List.mem_cons.mp hch with h | h
              · rw [h]; exact h2.1
              · exact h2.2 ch h
            cases hcs : clusterStep (c2 :: t2) next? slots (c2 :: t2) false with
            | error e => simp [step, hc2, hte, hcs, StepRes.isErr]
            | ok pr =>
              obtain ⟨slots2, used⟩ := pr
              have hp := clusterStep_preserve (c2 :: t2) next? (c2 :: t2) slots false
                slots2 used hcs i a ha hmall
              cases used with
              | true =>
                refine Or.inr ?_
                simp only [step, hcs, if_neg hc2, if_neg hte]
                simpa [StepRes.outSlots] using hp
              | false =>
                refine Or.inr ?_
                simp only [step, hcs, if_neg hc2, if_neg hte]
                simpa [StepRes.outSlots] using hp


theorem parseLoop_unmentioned :
    ∀ (slots : List Argument) (toks : List Str) (slotsF : List Argument) (remF : List Str),
      parseLoop slots toks = .ok (slotsF, remF) →
      ∀ (i : Nat) (a : Argument), slots[i]? = some a →
        (∀ t ∈ toks, mentionsTag a.tag t = false) →
        slotsF[i]? = some a := by
  intro slots toks
  induction slots, toks using parseLoop.induct with
  | case1 slots =>
    intro slotsF remF hok i a ha _
    simp only [parseLoop, Except.ok.injEq, Prod.mk.injEq] at hok
    rw [← hok.1]
    exact ha
  | case2 slots t rest e hstep =>
    intro slotsF remF hok i a ha hm
    simp [parseLoop, hstep] at hok
  | case3 slots t rest slots' hstep e herr ih =>
    intro slotsF remF hok i a ha hm
    simp [parseLoop, hstep, herr] at hok
  | case4 slots t rest slots' hstep s rem hok2 ih =>
    intro slotsF remF hok i a ha hm
    simp only [parseLoop, hstep, hok2, Except.ok.injEq, Prod.mk.injEq] at hok
    have ha' : slots'[i]? = some a := by
      rcases step_preserve slots t rest.head? i a ha (hm t (by simp)) with h | h
      · rw [hstep] at h; simp [StepRes.isErr] at h
      · rw [hstep] at h; simpa [StepRes.outSlots] using h
    rw [← hok.1]
    exact ih s rem hok2 i a ha' (fun x hx => hm x (by simp [hx]))
  | case5 slots t rest slots' hstep ih =>
    intro slotsF remF hok i a ha hm
    simp only [parseLoop, hstep] at hok
    have ha' : slots'[i]? = some a := by
      rcases step_preserve slots t rest.head? i a ha (hm t (by simp)) with h | h
      · rw [hstep] at h; simp [StepRes.isErr] at h
      · rw [hstep] at h; simpa [StepRes.outSlots] using h
    exact ih slotsF remF hok i a ha' (fun x hx => hm x (by simp [hx]))
  | case6 slots t slots' hstep =>
    intro slotsF remF hok i a ha hm
    simp only [parseLoop, hstep, Except.ok.injEq, Prod.mk.injEq] at hok
    have ha' : slots'[i]? = some a := by
      rcases step_preserve slots t ([] : List Str).head? i a ha (hm t (by simp)) with h | h
      · rw [hstep] at h; simp [StepRes.isErr] at h
      · rw [hstep] at h; simpa [StepRes.outSlots] using h
    rw [← hok.1]
    exact ha'
  | case7 slots t slots' head rest2 hstep ih =>
    intro slotsF remF hok i a ha hm
    simp only [parseLoop, hstep] at hok
    have ha' : slots'[i]? = some a := by
      rcases step_preserve slots t (head :: rest2).head? i a ha (hm t (by simp)) with h | h
      · rw [hstep] at h; simp [StepRes.isErr] at h
      · rw [hstep] at h; simpa [StepRes.outSlots] using h
    exact ih slotsF remF hok i a ha' (fun x hx => hm x (by simp [hx]))

/-- C7: after every successful `parse_args` call, a registered slot whose
tag is mentioned by none of the scanned CLI tokens holds exactly its
initialization value: `Flag(false)` for a flag-typed slot (present, not
absent), `None` for a consuming (string/integer) slot. -/
theorem c7_unmentioned_slot_values (p : ArgumentParser) (args : List Str)
    (pF : ArgumentParser) (rem : List Str) (i : Nat) (a : Argument)
    (hok : parse_args p args = .ok (pF, rem))
    (ha : p.args[i]? = some a)
    (hm : ∀ t ∈ args.tail, mentionsTag a.tag t = false) :
    pF.args[i]? = some { a with val := match a.typ with
                                       | .flag => some (.flag false)
                                       | _ => none } := by
  simp only [parse_args] at hok
  cases hpl : parseLoop (p.args.map resetArg) args.tail with
  | error e => rw [hpl] at hok; simp at hok
  | ok pr =>
    obtain ⟨slotsF, remF⟩ := pr
    rw [hpl] at hok
    simp only [Except.ok.injEq, Prod.mk.injEq] at hok
    have hmap : (p.args.map resetArg)[i]? = some (resetArg a) := by
      simp [List.getElem?_map, ha]
    have hkeep := parseLoop_unmentioned (p.args.map resetArg) args.tail slotsF remF hpl
      i (resetArg a) hmap (by intro t ht; simpa [resetArg] using hm t ht)
    rw [← hok.1]
    simpa [resetArg] using hkeep

/-- Witness for C7: parsing `bin pos` against an unmentioned flag slot
`-d` and an unmentioned string slot `--name` leaves `-d` at
`Flag(false)` and `--name` at `None`. -/
theorem c7_witness :
    parse_args ⟨[⟨.short 'd', .flag, none⟩, ⟨.long (("name").toList), .str, none⟩], none⟩
        [("bin").toList, ("pos").toList] =
      .ok (⟨[⟨.short 'd', .flag, some (.flag false)⟩,
             ⟨.long (("name").toList), .str, none⟩], some (("bin").toList)⟩,
           [("pos").toList]) ∧
    (⟨[⟨.short 'd', .flag, some (.flag false)⟩,
       ⟨.long (("name").toList), .str, none⟩], some (("bin").toList)⟩ :
        ArgumentParser).args[0]? = some ⟨.short 'd', .flag, some (.flag false)⟩ ∧
    (⟨[⟨.short 'd', .flag, some (.flag false)⟩,
       ⟨.long (("name").toList), .str, none⟩], some (("bin").toList)⟩ :
        ArgumentParser).args[1]? = some ⟨.long (("name").toList), .str, none⟩ :=
  ⟨by decide,
   c7_unmentioned_slot_values
     ⟨[⟨.short 'd', .flag, none⟩, ⟨.long (("name").toList), .str, none⟩], none⟩
     [("bin").toList, ("pos").toList]
     ⟨[⟨.short 'd', .flag, some (.flag false)⟩,
       ⟨.long (("name").toList), .str, none⟩], some (("bin").toList)⟩
     [("pos").toList] 0 ⟨.short 'd', .flag, none⟩
     (by decide) (by decide) (by decide),
   c7_unmentioned_slot_values
     ⟨[⟨.short 'd', .flag, none⟩, ⟨.long (("name").toList), .str, none⟩], none⟩
     [("bin").toList, ("pos").toList]
     ⟨[⟨.short 'd', .flag, some (.flag false)⟩,
       ⟨.long (("name").toList), .str, none⟩], some (("bin").toList)⟩
     [("pos").toList] 1 ⟨.long (("name").toList), .str, none⟩
     (by decide) (by decide) (by decide)⟩

/-- A cluster whose prefix consists of registered flag characters and
whose next character names a registered consuming slot fails with
`MissingValue` for that character when no lookahead token exists. -/
theorem clusterStep_missing :
    ∀ (pre : List Char) (slots : List Argument) (c : Char) (post : List Char) (whole : Str),
      (∀ ch ∈ pre, ∃ j, lookupIdx slots (.short ch) = some (j, .flag)) →
      (∃ i ty, lookupIdx slots (.short c) = some (i, ty) ∧ ty ≠ .flag) →
      clusterStep whole none slots (pre ++ c :: post) false = .error (.missingValue [c]) := by
  intro pre
  induction pre with
  | nil =>
    intro slots c post whole _ hc
    obtain ⟨i, ty, hlk, hty⟩ := hc
    cases ty with
    | flag => exact absurd rfl hty
    | integer => simp [clusterStep, hlk]
    | str => simp [clusterStep, hlk]
  | cons p ps ih =>
    intro slots c post whole hpre hc
    obtain ⟨j, hj⟩ := hpre p (by simp)
    simp only [List.cons_append, clusterStep, hj]
    apply ih
    · intro ch hch
      obtain ⟨j', hj'⟩ := hpre ch (by simp [hch])
      exact ⟨j', by rw [lookupIdx_updateVal]; exact hj'⟩
    · obtain ⟨i, ty, hlk, hty⟩ := hc
      exact ⟨i, ty, by rw [lookupIdx_updateVal]; exact hlk, hty⟩

/-- C8: whenever a registered consuming (string/integer) slot's flag
occurs as the last token of the stream with no inline `=` value — in
long form, lone short form, or clustered short form — the parse fails
with `MissingValue` naming that flag: stated for the scan loop from any
reachable state (first conjunct) and for a whole `parse_args` call whose
final token it is (second conjunct). -/
theorem c8_missing_value :
    (∀ (slots : List Argument) (t name : Str),
      ConsumingAtEnd slots t name →
      parseLoop slots [t] = .error (.missingValue name)) ∧
    (∀ (p : ArgumentParser) (bin t name : Str),
      ConsumingAtEnd (p.args.map resetArg) t name →
      parse_args p [bin, t] = .error (.missingValue name)) := by
  have core : ∀ (slots : List Argument) (t name : Str),
      ConsumingAtEnd slots t name →
      step slots t none = .err (.missingValue name) := by
    intro slots t name hc
    cases hc with
    | longForm name i ty hsplit hlk hty =>
      cases ty with
      | flag => exact absurd rfl hty
      | integer => simp [step, hsplit, hlk]
      | str => simp [step, hsplit, hlk]
    | shortForm c i ty hc hlk hty =>
      cases ty with
      | flag => exact absurd rfl hty
      | integer => simp [step, hc, hlk]
      | str => simp [step, hc, hlk]
    | clusterForm pre c post i ty hhead hlen hpre hlk hty =>
      have hmiss : clusterStep (pre ++ c :: post) none slots (pre ++ c :: post) false =
          .error (.missingValue [c]) :=
        clusterStep_missing pre slots c post (pre ++ c :: post) hpre ⟨i, ty, hlk, hty⟩
      cases pre with
      | nil =>
        have hcd : c ≠ '-' := by
          intro h
          exact hhead (by simp [h])
        have hpost : post ≠ [] := by
          rcases hlen with h | h
          · exact absurd rfl h
          · exact h
        simp only [List.nil_append] at hmiss
        simp [step, hcd, hpost, hmiss]
      | cons p ps =>
        have hpd : p ≠ '-' := by
          intro h
          exact hhead (by simp [h])
        have hne : ps ++ c :: post ≠ [] := by simp
        simp only [List.cons_append] at hmiss
        simp [step, hpd, hne, hmiss]
  constructor
  · intro slots t name hc
    have hs := core slots t name hc
    simp [parseLoop, hs]
  · intro p bin t name hc
    have hs := core (p.args.map resetArg) t name hc
    simp [parse_args, parseLoop, hs]

/-- Witness for C8: `--name` (string slot) as final token, and the
cluster `-oc` (flag `o`, integer `c`) as final token, both fail with
`MissingValue` naming the consuming flag. -/
theorem c8_witness :
    parseLoop [⟨.long (("name").toList), .str, none⟩] [("--name").toList] =
        .error (.missingValue (("name").toList)) ∧
    parse_args ⟨[⟨.short 'o', .flag, none⟩, ⟨.short 'c', .integer, none⟩], none⟩
        [("bin").toList, ("-oc").toList] =
      .error (.missingValue [('c' : Char)]) :=
  ⟨c8_missing_value.1 [⟨.long (("name").toList), .str, none⟩]
     (("--name").toList) (("name").toList)
     (.longForm (("name").toList) 0 .str (by decide) (by decide) (by decide)),
   c8_missing_value.2 ⟨[⟨.short 'o', .flag, none⟩, ⟨.short 'c', .integer, none⟩], none⟩
     (("bin").toList) (("-oc").toList) [('c' : Char)]
     (by
       have : ("-oc").toList = '-' :: (['o'] ++ 'c' :: []) := by decide
       rw [this]
       exact .clusterForm ['o'] 'c' [] 1 .integer (by decide) (by decide)
         (by intro ch hch; fin_cases hch; exact ⟨0, by decide⟩)
         (by decide) (by decide))⟩

theorem slotConsumes_updateVal (slots : List Argument) (j : Nat) (v : Option ArgValue)
    (c : Char) : slotConsumes (updateVal slots j v) c = slotConsumes slots c := by
  simp [slotConsumes, lookupIdx_updateVal]

theorem firstConsumeOk_updateVal (slots : List Argument) (j : Nat) (v : Option ArgValue)
    (s : List Char) (w : Str) :
    firstConsumeOk (updateVal slots j v) s w = firstConsumeOk slots s w := by
  have hfun : slotConsumes (updateVal slots j v) = slotConsumes slots :=
    funext (slotConsumes_updateVal slots j v)
  simp only [firstConsumeOk, hfun, lookupIdx_updateVal]

/-- Once a cluster has consumed its value, reaching any further
registered consuming character aborts with `ConsumedValue` naming the
whole cluster. -/
theorem clusterStep_conflict_used :
    ∀ (s : List Char) (slots : List Argument) (whole : Str) (next? : Option Str),
      (∀ c ∈ s, (lookupIdx slots (.short c)).isSome = true) →
      (∃ c ∈ s, slotConsumes slots c = true) →
      clusterStep whole next? slots s true = .error (.consumedValue whole) := by
  intro s
  induction s with
  | nil => intro slots whole next? _ hex; simp at hex
  | cons c cs ih =>
    intro slots whole next? hreg hex
    cases hlk : lookupIdx slots (.short c) with
    | none =>
      have := hreg c (by simp)
      rw [hlk] at this
      simp at this
    | some p =>
      obtain ⟨j, ty⟩ := p
      cases ty with
      | flag =>
        simp only [clusterStep, hlk]
        apply ih
        · intro ch hch
          rw [lookupIdx_updateVal]
          exact hreg ch (by simp [hch])
        · have hcc : slotConsumes slots c = false := by simp [slotConsumes, hlk]
          rcases hex with ⟨c', hc', hcons⟩
          rcases List.mem_cons.mp hc' with h | h
          · rw [h] at hcons
            rw [hcons] at hcc
            exact Bool.noConfusion hcc
          · exact ⟨c', h, by rw [slotConsumes_updateVal]; exact hcons⟩
      | integer => simp [clusterStep, hlk]
      | str => simp [clusterStep, hlk]

/-- A cluster of registered characters containing at least two
value-consuming ones, scanned with a lookahead token available, always
fails; and when its first consuming character accepts the lookahead
(string slot, or integer slot with a parsable value), the failure is
exactly `ConsumedValue` naming the cluster. -/
theorem clusterStep_two_consumers :
    ∀ (s : List Char) (slots : List Argument) (whole : Str) (v : Str),
      (∀ c ∈ s, (lookupIdx slots (.short c)).isSome = true) →
      2 ≤ (s.filter (slotConsumes slots)).length →
      ((∃ e, clusterStep whole (some v) slots s false = .error e) ∧
       (firstConsumeOk slots s v = true →
         clusterStep whole (some v) slots s false = .error (.consumedValue whole))) := by
  intro s
  induction s with
  | nil => intro slots whole v _ hlen; simp at hlen
  | cons c cs ih =>
    intro slots whole v hreg hlen
    cases hlk : lookupIdx slots (.short c) with
    | none =>
      have := hreg c (by simp)
      rw [hlk] at this
      simp at this
    | some p =>
      obtain ⟨j, ty⟩ := p
      cases ty with
      | flag =>
        have hcf : slotConsumes slots c = false := by simp [slotConsumes, hlk]
        have hlen' : 2 ≤ (cs.filter (slotConsumes slots)).length := by
          rwa [List.filter_cons_of_neg (by simp [hcf])] at hlen
        have hreg' : ∀ ch ∈ cs, (lookupIdx (updateVal slots j (some (.flag true)))
            (.short ch)).isSome = true := by
          intro ch hch
          rw [lookupIdx_updateVal]
          exact hreg ch (by simp [hch])
        have hlen'' : 2 ≤ (cs.filter (slotConsumes
            (updateVal slots j (some (.flag true))))).length := by
          have hfun : slotConsumes (updateVal slots j (some (.flag true))) =
              slotConsumes slots :=
            funext (slotConsumes_updateVal slots j (some (.flag true)))
          rwa [hfun]
        obtain ⟨⟨e, he⟩, himp⟩ := ih (updateVal slots j (some (.flag true))) whole v hreg' hlen''
        constructor
        · exact ⟨e, by simp only [clusterStep, hlk]; exact he⟩
        · intro hfc
          have hfc' : firstConsumeOk (updateVal slots j (some (.flag true))) cs v = true := by
            rw [firstConsumeOk_updateVal]
            have hfind : List.find? (slotConsumes slots) (c :: cs) =
                List.find? (slotConsumes slots) cs := by
              simp [List.find?_cons, hcf]
            have : firstConsumeOk slots (c :: cs) v = firstConsumeOk slots cs v := by
              simp only [firstConsumeOk, hfind]
            rwa [this] at hfc
          simp only [clusterStep, hlk]
          exact himp hfc'
      | integer =>
        have hct : slotConsumes slots c = true := by simp [slotConsumes, hlk]
        cases hpv : parseI32 v with
        | error e =>
          constructor
          · exact ⟨.invalidInteger (intErrMsg e), by simp [clusterStep, hlk, hpv]⟩
          · intro hfc
            have hfind : List.find? (slotConsumes slots) (c :: cs) = some c := by
              simp [List.find?_cons, hct]
            simp [firstConsumeOk, hfind, hlk, hpv, Except.toOption] at hfc
        | ok n =>
          have hrest : 1 ≤ (cs.filter (slotConsumes slots)).length := by
            rw [List.filter_cons_of_pos (by simp [hct])] at hlen
            simpa using hlen
          obtain ⟨c', hc'⟩ := List.exists_mem_of_length_pos hrest
          have hc'mem : c' ∈ cs ∧ slotConsumes slots c' = true := List.mem_filter.mp hc'
          have hused := clusterStep_conflict_used cs
            (updateVal slots j (some (.integer n))) whole (some v)
            (by intro ch hch; rw [lookupIdx_updateVal]; exact hreg ch (by simp [hch]))
            ⟨c', hc'mem.1, by rw [slotConsumes_updateVal]; exact hc'mem.2⟩
          constructor
          · exact ⟨.consumedValue whole, by simp only [clusterStep, hlk, hpv]; simpa using hused⟩
          · intro _
            simp only [clusterStep, hlk, hpv]
            simpa using hused
      | str =>
        have hct : slotConsumes slots c = true := by simp [slotConsumes, hlk]
        have hrest : 1 ≤ (cs.filter (slotConsumes slots)).length := by
          rw [List.filter_cons_of_pos (by simp [hct])] at hlen
          simpa using hlen
        obtain ⟨c', hc'⟩ := List.exists_mem_of_length_pos hrest
        have hc'mem : c' ∈ cs ∧ slotConsumes slots c' = true := List.mem_filter.mp hc'
        have hused := clusterStep_conflict_used cs
          (updateVal slots j (some (.str v))) whole (some v)
          (by intro ch hch; rw [lookupIdx_updateVal]; exact hreg ch (by simp [hch]))
          ⟨c', hc'mem.1, by rw [slotConsumes_updateVal]; exact hc'mem.2⟩
        constructor
        · exact ⟨.consumedValue whole, by simp only [clusterStep, hlk]; simpa using hused⟩
        · intro _
          simp only [clusterStep, hlk]
          simpa using hused

/-- C6 (amended): for every clustered short token `-<c2><t2>` whose
characters all name registered slots, at least two of them
value-consuming, with a following token `v` present: the parse always
fails — it never completes and never assigns `v` to more than one slot —
and whenever the first consuming character's value parse succeeds
(always for a string slot; for an integer slot exactly when `v` parses
as `i32`), the error is `ConsumedValue` naming the whole cluster
(without the leading dash). -/
theorem c6_cluster_conflict :
    ∀ (slots : List Argument) (c2 : Char) (t2 : List Char) (v : Str) (rest : List Str),
      c2 ≠ '-' → t2 ≠ [] →
      (∀ ch ∈ c2 :: t2, (lookupIdx slots (.short ch)).isSome = true) →
      2 ≤ ((c2 :: t2).filter (slotConsumes slots)).length →
      ((∃ e, parseLoop slots (('-' :: c2 :: t2) :: v :: rest) = .error e) ∧
       (firstConsumeOk slots (c2 :: t2) v = true →
         parseLoop slots (('-' :: c2 :: t2) :: v :: rest) =
           .error (.consumedValue (c2 :: t2)))) := by
  intro slots c2 t2 v rest hc2 ht2 hreg hlen
  obtain ⟨⟨e, he⟩, himp⟩ := clusterStep_two_consumers (c2 :: t2) slots (c2 :: t2) v hreg hlen
  constructor
  · refine ⟨e, ?_⟩
    have hstep : step slots ('-' :: c2 :: t2) (some v) = .err e := by
      simp [step, hc2, ht2, he]
    simp [parseLoop, hstep]
  · intro hfc
    have he2 := himp hfc
    have hstep : step slots ('-' :: c2 :: t2) (some v) = .err (.consumedValue (c2 :: t2)) := by
      simp [step, hc2, ht2, he2]
    simp [parseLoop, hstep]

/-- Witness for C6: the cluster `-cd` over two registered string slots
with following token `x` fails with `ConsumedValue("cd")`. -/
theorem c6_witness :
    parseLoop [⟨.short 'c', .str, none⟩, ⟨.short 'd', .str, none⟩]
        [("-cd").toList, ("x").toList] =
      .error (.consumedValue (("cd").toList)) := by
  have h := c6_cluster_conflict [⟨.short 'c', .str, none⟩, ⟨.short 'd', .str, none⟩]
    'c' ['d'] (("x").toList) []
    (by decide) (by decide) (by decide) (by decide)
  exact h.2 (by decide)

/-- C9 (amended): `parse_args` resets every slot's value at entry
(flags to `Flag(false)`, consuming slots to `None`), so calling it on a
used, un-reset parser gives exactly the same outcome — same error or
same final slots, binary and remainder — as calling it on a freshly
declared registry with the same slots; no explicit reset or fresh
registry is required before re-parsing. -/
theorem c9_reparse_equals_fresh (p : ArgumentParser) (args : List Str) :
    parse_args p args = parse_args (freshLike p) args := by
  have hmap : (freshLike p).args.map resetArg = p.args.map resetArg := by
    simp only [freshLike, List.map_map]
    induction p.args with
    | nil => rfl
    | cons a l ih => simp only [List.map_cons] at ih ⊢; rw [ih]; rfl
  simp only [parse_args, hmap]

/-- C9 counterexample: after a first parse leaves `--name` holding
`Jonah` (a state differing from a fresh registry), a second
`parse_args` call on the SAME un-reset parser yields exactly the same
outcome as on a freshly declared registry with the same slots,
contradicting the claim that the second outcome can depend on leftover
slot values. -/
theorem c9_counterexample :
    parse_args ⟨[⟨.long (("name").toList), .str, none⟩, ⟨.short 'h', .flag, none⟩], none⟩
        [("abc").toList, ("--name").toList, ("Jonah").toList] =
      .ok (⟨[⟨.long (("name").toList), .str, some (.str (("Jonah").toList))⟩,
             ⟨.short 'h', .flag, some (.flag false)⟩], some (("abc").toList)⟩, []) ∧
    (⟨[⟨.long (("name").toList), .str, some (.str (("Jonah").toList))⟩,
       ⟨.short 'h', .flag, some (.flag false)⟩], some (("abc").toList)⟩ :
      ArgumentParser).args ≠
      (freshLike ⟨[⟨.long (("name").toList), .str, some (.str (("Jonah").toList))⟩,
                   ⟨.short 'h', .flag, some (.flag false)⟩], some (("abc").toList)⟩).args ∧
    parse_args ⟨[⟨.long (("name").toList), .str, some (.str (("Jonah").toList))⟩,
                 ⟨.short 'h', .flag, some (.flag false)⟩], some (("abc").toList)⟩
        [("abc").toList, ("-h").toList, ("Jonah").toList] =
      parse_args (freshLike ⟨[⟨.long (("name").toList), .str, some (.str (("Jonah").toList))⟩,
                              ⟨.short 'h', .flag, some (.flag false)⟩], some (("abc").toList)⟩)
        [("abc").toList, ("-h").toList, ("Jonah").toList] := by
  refine ⟨by decide, by decide, by decide⟩

/-- C4 (amended): `Cli::matches` holds exactly when either the token is
`--` followed by precisely the tag's long component, or the token is a
single `-` followed by at least one character whose FIRST character
equals the tag's short component (any trailing characters are ignored,
contrary to the claim's "exactly one character remaining");
`Full::matches_cli` delegates to the optional CLI component. -/
theorem c4_matches_characterization :
    (∀ (t : Cli) (tok : Str),
      t.matches tok = true ↔
        ((∃ l, tok = '-' :: '-' :: l ∧ t.longComp = some l) ∨
         (∃ c rest, tok = '-' :: c :: rest ∧ c ≠ '-' ∧ t.shortComp = some c))) ∧
    (∀ (f : Full) (tok : Str),
      f.matches_cli tok = true ↔ ∃ t, f.cli = some t ∧ t.matches tok = true) := by
  constructor
  · intro t tok
    match tok with
    | [] => simp [Cli.matches]
    | [c1] => simp [Cli.matches]
    | c1 :: c2 :: rest =>
      by_cases hc1 : c1 = '-'
      · subst hc1
        by_cases hc2 : c2 = '-'
        · subst hc2
          cases t <;>
            simp [Cli.matches, Cli.matches_long, Cli.longComp, Cli.shortComp]
        · cases t <;>
            simp [Cli.matches, Cli.matches_short, Cli.longComp, Cli.shortComp, hc2]
      · cases t <;> simp [Cli.matches, hc1]
  · intro f tok
    cases hc : f.cli with
    | none => simp [Full.matches_cli, hc]
    | some t => simp [Full.matches_cli, hc]

/-- Equality tests are symmetric as booleans. -/
theorem decideEqSymm {α : Type} [DecidableEq α] (x y : α) :
    decide (x = y) = decide (y = x) := by
  by_cases h : x = y
  · subst h; rfl
  · rw [decide_eq_false h, decide_eq_false (fun hh => h hh.symm)]

/-- C10: tag equality (the custom `PartialEq`, identically implemented
for `Tag` in `src/lib.rs` and `Cli` in `src/tag.rs`) matches on either
component and is symmetric — `Short(c) = Both(c,l)`, `Long(l) = Both(c,l)`,
`Both = Both` exactly when the short characters or long strings
coincide — yet `Short(c)` never equals `Long(l)`, so the relation is
not transitive (both equal `Both(c,l)`). -/
theorem c10_tag_eq_properties :
    (∀ (c : Char) (l : Str), tagEq (.short c) (.both c l) = true) ∧
    (∀ (c : Char) (l : Str), tagEq (.long l) (.both c l) = true) ∧
    (∀ (c c' : Char) (l l' : Str),
      tagEq (.both c l) (.both c' l') = true ↔ (c = c' ∨ l = l')) ∧
    (∀ (a b : Tag), tagEq a b = tagEq b a) ∧
    (∀ (c : Char) (l : Str), tagEq (.short c) (.long l) = false) ∧
    (tagEq (.short 'a') (.both 'a' (("b").toList)) = true ∧
     tagEq (.both 'a' (("b").toList)) (.long (("b").toList)) = true ∧
     tagEq (.short 'a') (.long (("b").toList)) = false) ∧
    (∀ (c : Char) (l : Str), cliEq (.Short c) (.Both c l) = true) ∧
    (∀ (c : Char) (l : Str), cliEq (.Long l) (.Both c l) = true) ∧
    (∀ (c c' : Char) (l l' : Str),
      cliEq (.Both c l) (.Both c' l') = true ↔ (c = c' ∨ l = l')) ∧
    (∀ (a b : Cli), cliEq a b = cliEq b a) ∧
    (∀ (c : Char) (l : Str), cliEq (.Short c) (.Long l) = false) := by
  refine ⟨?_, ?_, ?_, ?_, ?_, by decide, ?_, ?_, ?_, ?_, ?_⟩
  · intro c l; simp [tagEq]
  · intro c l; simp [tagEq]
  · intro c c' l l'; simp [tagEq]
  · intro a b
    cases a with
    | short s =>
      cases b with
      | short o => exact decideEqSymm s o
      | long o => rfl
      | both o1 o2 => exact decideEqSymm s o1
    | long s =>
      cases b with
      | short o => rfl
      | long o => exact decideEqSymm s o
      | both o1 o2 => exact decideEqSymm s o2
    | both s1 s2 =>
      cases b with
      | short o => exact decideEqSymm s1 o
      | long o => exact decideEqSymm s2 o
      | both o1 o2 =>
        show (decide (s1 = o1) || decide (s2 = o2)) =
          (decide (o1 = s1) || decide (o2 = s2))
        rw [decideEqSymm s1 o1, decideEqSymm s2 o2]
  · intro c l; rfl
  · intro c l; simp [cliEq]
  · intro c l; simp [cliEq]
  · intro c c' l l'; simp [cliEq]
  · intro a b
    cases a with
    | Short s =>
      cases b with
      | Short o => exact decideEqSymm s o
      | Long o => rfl
      | Both o1 o2 => exact decideEqSymm s o1
    | Long s =>
      cases b with
      | Short o => rfl
      | Long o => exact decideEqSymm s o
      | Both o1 o2 => exact decideEqSymm s o2
    | Both s1 s2 =>
      cases b with
      | Short o => exact decideEqSymm s1 o
      | Long o => exact decideEqSymm s2 o
      | Both o1 o2 =>
        show (decide (s1 = o1) || decide (s2 = o2)) =
          (decide (o1 = s1) || decide (o2 = s2))
        rw [decideEqSymm s1 o1, decideEqSymm s2 o2]
  · intro c l; rfl
